import Mathlib

/-
Verification of the concurrent session/pipeline orchestration layer of the
SmartICE staff/customer detector backend: the lock-free Michael-Scott queue
(`include/lockfree_queue.hpp`), the worker thread pool
(`include/thread_pool.h`, `src/thread_pool.cpp`) and the camera session
registry (`src/camera_manager.cpp`).

The embedding is sequential/atomic: each C++ operation is modelled as a pure
function on an explicit state.  For the lock-free queue the node store is an
explicit heap (a list of optional nodes indexed by address; a freed node is
`none`), so that node allocation, linking and retirement are visible.  Every
compare-and-swap succeeds in the single-thread interleaving modelled here, and
the retry loops are given explicit fuel; fuel sufficiency is proved, which is
the functional content of "never blocks".

Machine `float` quantities (inference latency, EWMA average, fps) are
modelled as exact rationals; `int`/`int64_t` counters and timestamps are
modelled as unbounded `Int` (no claim depends on wrap-around).  External
collaborators (the neural detector, the FFmpeg decoder, OpenCV rendering)
are modelled at their boundary: the detector is an oracle function
`Frame -> InferenceResult`, the decoder's post-start readings are an input
`DecoderProbe`, and rendering pairs the frame with the result drawn onto it.
-/

namespace Smartice

/-! Lock-free queue (include/lockfree_queue.hpp).

`struct Node { std::shared_ptr<T> data; std::atomic<Node*> next; }`.
A node address is a `Nat` index into the heap list; `data = none` models a
null `shared_ptr` (the dummy node), `next = none` a null next pointer. -/

structure Node (T : Type) where
  data : Option T
  next : Option Nat
  deriving Repr, DecidableEq

/-- The queue state: the node heap (address-indexed; `none` = freed node),
the `head_`, `tail_` pointers and the approximate `size_` counter. -/
structure LockFreeQueue (T : Type) where
  heap : List (Option (Node T))
  head_ : Nat
  tail_ : Nat
  size_ : Nat
  deriving Repr, DecidableEq

namespace LockFreeQueue

variable {T : Type}

/-- Dereference a node address: `none` when the address is out of range or
the node was freed (in C++ both would be undefined behaviour). -/
def deref (q : LockFreeQueue T) (a : Nat) : Option (Node T) :=
  (q.heap[a]?).getD none

/-- Constructor `LockFreeQueue()`: allocates the dummy node and points both
`head_` and `tail_` at it; `size_ = 0`. -/
def new (T : Type) : LockFreeQueue T :=
  { heap := [some { data := none, next := none }]
    head_ := 0
    tail_ := 0
    size_ := 0 }

/-- The retry loop of `push`, one iteration per fuel unit (sequentially the
CAS succeeds, so linking and swinging the tail are one atomic step):
read `tail_`; if its `next` is null, link the new node there, swing `tail_`
to it and bump `size_`; otherwise the tail lags, swing `tail_` forward and
retry. -/
def pushLoop (newAddr : Nat) (fuel : Nat) (q : LockFreeQueue T) : LockFreeQueue T :=
  match fuel with
  | 0 => q
  | f + 1 =>
    match q.deref q.tail_ with
    | none => q
    | some tn =>
      match tn.next with
      | none =>
          { q with
            heap := q.heap.set q.tail_ (some { tn with next := some newAddr })
            tail_ := newAddr
            size_ := q.size_ + 1 }
      | some nxt => pushLoop newAddr f { q with tail_ := nxt }

/-- Models `push(value)`: allocate the new node (at the next free address) and run
the linking loop; fuel = heap size bounds the tail walk. -/
def push (q : LockFreeQueue T) (v : T) : LockFreeQueue T :=
  let newAddr := q.heap.length
  let q0 : LockFreeQueue T :=
    { q with heap := q.heap ++ [some { data := some v, next := none }] }
  pushLoop newAddr q0.heap.length q0

/-- The retry loop of `pop`: read `head_`, `tail_` and `head_->next`;
if `head_ == tail_` and next is null the queue is empty; if next exists the
tail lags and is swung forward before retrying; otherwise the payload of the
node after head is copied *before* the head-advancing CAS, and the winning
CAS deletes the old head node and decrements `size_`. -/
def popLoop (fuel : Nat) (q : LockFreeQueue T) : Option T × LockFreeQueue T :=
  match fuel with
  | 0 => (none, q)
  | f + 1 =>
    match q.deref q.head_ with
    | none => (none, q)
    | some hn =>
      if q.head_ = q.tail_ then
        match hn.next with
        | none => (none, q)
        | some nxt => popLoop f { q with tail_ := nxt }
      else
        match hn.next with
        | none => (none, q)
        | some nxt =>
          match q.deref nxt with
          | none => (none, q)
          | some nn =>
            match nn.data with
            | none => (none, q)
            | some v =>
                (some v,
                 { q with
                   head_ := nxt
                   heap := q.heap.set q.head_ none
                   size_ := q.size_ - 1 })

/-- Models `pop(result)`: run the pop loop; fuel = heap size + 1 bounds any tail
lag.  Returns the popped value (`none` = `found=false`) and the new state. -/
def pop (q : LockFreeQueue T) : Option T × LockFreeQueue T :=
  popLoop (q.heap.length + 1) q

/-- Models `size()`: the relaxed counter. -/
def size (q : LockFreeQueue T) : Nat := q.size_

/-- Models `empty()`: reads `head_`, `tail_` and `head_->next` and reports
head == tail with no next node. -/
def emptyQ (q : LockFreeQueue T) : Bool :=
  (q.head_ == q.tail_) && (((q.deref q.head_).bind Node.next) == none)

/-- The observation `pop` treats as "queue empty": head equals tail and the
head node's next link is absent. -/
def observedEmpty (q : LockFreeQueue T) : Prop :=
  q.head_ = q.tail_ ∧ (q.deref q.head_).bind Node.next = none

/-- The payload stored at address `i` (the `shared_ptr` contents). -/
def valAt (q : LockFreeQueue T) (i : Nat) : Option T :=
  (q.deref i).bind Node.data

/-- Structural invariant of the sequential queue: the heap is the allocation
history, `tail_` is the last allocated node, every address strictly below
`head_` has been freed, the nodes from `head_` to `tail_` form the linked
chain (consecutive addresses), the tail node's next is null, every node
after the head holds a payload, and `size_` counts the nodes after head. -/
def Inv (q : LockFreeQueue T) : Prop :=
  q.tail_ + 1 = q.heap.length ∧
  q.head_ ≤ q.tail_ ∧
  (∀ i, i < q.head_ → q.heap[i]? = some none) ∧
  (∀ i, q.head_ ≤ i → i < q.tail_ → ∃ n : Node T, q.deref i = some n ∧ n.next = some (i + 1)) ∧
  (∃ n : Node T, q.deref q.tail_ = some n ∧ n.next = none) ∧
  (∀ i, q.head_ + 1 ≤ i → i ≤ q.tail_ → ∃ n : Node T, ∃ v : T, q.deref i = some n ∧ n.data = some v) ∧
  q.size_ = q.tail_ - q.head_

/-- Abstraction relation: the queue represents the list `l` of payloads of
the nodes strictly after the head node, in link order. -/
def Sim (q : LockFreeQueue T) (l : List T) : Prop :=
  Inv q ∧ q.tail_ = q.head_ + l.length ∧ ∀ j : Nat, q.valAt (q.head_ + 1 + j) = l[j]?

/-- Push a whole list, one element at a time (single-thread producer). -/
def pushAll (q : LockFreeQueue T) : List T → LockFreeQueue T
  | [] => q
  | v :: vs => pushAll (q.push v) vs

/-- Pop `k` times (single-thread consumer), collecting the found values in
order; stops early if a pop reports empty. -/
def popN (q : LockFreeQueue T) : Nat → List T × LockFreeQueue T
  | 0 => ([], q)
  | k + 1 =>
    match q.pop with
    | (none, q1) => ([], q1)
    | (some v, q1) =>
      let r := popN q1 k
      (v :: r.1, r.2)

/-- States reachable from the freshly constructed queue by pushes and pops,
together with the history of values returned by the pops so far. -/
inductive Reach (T : Type) : LockFreeQueue T → List T → Prop
  | init : Reach T (new T) []
  | push {q : LockFreeQueue T} {h : List T} (v : T) :
      Reach T q h → Reach T (q.push v) h
  | pop {q q' : LockFreeQueue T} {h : List T} {r : Option T} :
      Reach T q h → q.pop = (r, q') → Reach T q' (h ++ r.toList)

end LockFreeQueue

/-! Thread pool (include/thread_pool.h, src/thread_pool.cpp).

The shared state under `queue_mutex_` is the FIFO `tasks_` and the `stop_`
flag.  `enqueue`'s `throw std::runtime_error("enqueue on stopped ThreadPool")`
is modelled as the typed error `PoolError.PoolClosed` delivered to the
caller.  A task is opaque (type parameter). -/

inductive PoolError where
  | PoolClosed
  deriving Repr, DecidableEq

structure ThreadPool (τ : Type) where
  tasks_ : List τ
  stop_ : Bool
  deriving Repr, DecidableEq

namespace ThreadPool

variable {τ : Type}

/-- Models `enqueue`: under the lock, fail with `PoolClosed` if `stop_` is set
(the task is not enqueued); otherwise append the task to the queue. -/
def enqueue (p : ThreadPool τ) (t : τ) : Except PoolError (ThreadPool τ) :=
  if p.stop_ then Except.error PoolError.PoolClosed
  else Except.ok { p with tasks_ := p.tasks_ ++ [t] }

/-- What a worker does when it next holds the lock. -/
inductive WorkerAct (τ : Type) where
  | wait
  | exit
  | run (t : τ)
  deriving Repr, DecidableEq

/-- One iteration of the worker loop: block on the condition variable while
`!stop_ && tasks_.empty()`; exit when `stop_ && tasks_.empty()`; otherwise
take the front task (to be executed outside the lock). -/
def workerStep (p : ThreadPool τ) : WorkerAct τ × ThreadPool τ :=
  match p.tasks_ with
  | [] => if p.stop_ then (WorkerAct.exit, p) else (WorkerAct.wait, p)
  | t :: rest => (WorkerAct.run t, { p with tasks_ := rest })

/-- Workers repeatedly stepping after `stop_` is set: collects the tasks
executed, in the order they are taken from the queue. -/
def drainLoop (fuel : Nat) (p : ThreadPool τ) : List τ × ThreadPool τ :=
  match fuel with
  | 0 => ([], p)
  | f + 1 =>
    match workerStep p with
    | (WorkerAct.run t, p1) =>
      let r := drainLoop f p1
      (t :: r.1, r.2)
    | (_, p1) => ([], p1)

/-- Models the destructor `~ThreadPool()`: set `stop_` under the lock, wake every worker and join
them; the workers keep taking tasks until the queue is empty.  Returns the
tasks executed during shutdown and the final state. -/
def shutdown (p : ThreadPool τ) : List τ × ThreadPool τ :=
  drainLoop p.tasks_.length { p with stop_ := true }

end ThreadPool

/-! Camera session registry (src/camera_manager.cpp).

`Frame` is the opaque `cv::Mat` payload; the detector is the oracle
`infer : Frame → InferenceResult` (`InferenceEngine::infer`).  Calls into
the external decoder and detector are reported as `MgrEvent`s. -/

/-- Struct `Detection` (include/inference_engine.h). -/
structure Detection where
  x1 : ℚ
  y1 : ℚ
  x2 : ℚ
  y2 : ℚ
  confidence : ℚ
  class_id : Int
  class_name : String
  deriving Repr, DecidableEq

/-- Struct `InferenceResult` (include/inference_engine.h). -/
structure InferenceResult where
  detections : List Detection
  inference_time_ms : ℚ
  staff_count : Int
  customer_count : Int
  deriving Repr, DecidableEq

/-- A detector oracle whose reported latency is the frame itself (frames
are rationals): used to drive the EWMA with chosen concrete latencies. -/
def latencyOracle : ℚ → InferenceResult :=
  fun f =>
    { detections := [], inference_time_ms := f, staff_count := 0, customer_count := 0 }

/-- Struct `CameraStats` (include/camera_manager.h). -/
structure CameraStats where
  channel : Int
  rtsp_url : String
  is_running : Bool
  width : Int
  height : Int
  fps : ℚ
  total_frames : Int
  staff_count : Int
  customer_count : Int
  avg_inference_ms : ℚ
  start_time_ms : Int
  deriving Repr, DecidableEq

/-- The result of `CameraManager::draw_detections`: the OpenCV rendering is
external, so the annotated frame is modelled as the source frame together
with the detection result drawn onto it. -/
structure AnnotatedFrame (Frame : Type) where
  base : Frame
  overlay : InferenceResult
  deriving Repr, DecidableEq

/-- Models `CameraManager::draw_detections(frame, result)` (boundary model). -/
def draw_detections {Frame : Type} (frame : Frame) (result : InferenceResult) :
    AnnotatedFrame Frame :=
  { base := frame, overlay := result }

/-- Struct `CameraSession` (include/camera_manager.h).  The owned
`VideoDecoder` is external; the session records that `decoder->start` was
called and which channel the bound frame callback routes to. -/
structure CameraSession (Frame : Type) where
  channel : Int
  rtsp_url : String
  decoderStarted : Bool
  callbackChannel : Int
  latest_annotated_frame : Option (AnnotatedFrame Frame)
  stats : CameraStats
  last_frame_time_ms : Int
  deriving Repr, DecidableEq

/-- What the external `VideoDecoder` reports when `start_camera` reads it
after the 500 ms first-frame wait (best-effort: the values may be zero or
stale if the source is slow). -/
structure DecoderProbe where
  width : Int
  height : Int
  fps : ℚ
  is_running : Bool
  deriving Repr, DecidableEq

/-- Calls the registry makes into its external collaborators. -/
inductive MgrEvent (Frame : Type) where
  | decoderStart (channel : Int) (rtsp_url : String) (callbackChannel : Int)
  | decoderStop (channel : Int)
  | inferRun (frame : Frame)
  deriving DecidableEq

/-- The registry: the `sessions_` map guarded by `sessions_mutex_`. -/
structure CameraManager (Frame : Type) where
  sessions : Int → Option (CameraSession Frame)

namespace CameraManager

variable {Frame : Type}

/-- Point update of the `sessions_` map (insert or erase at one key). -/
def update (m : CameraManager Frame) (channel : Int)
    (s : Option (CameraSession Frame)) : CameraManager Frame :=
  { sessions := fun c => if c = channel then s else m.sessions c }

/-- The registry with no sessions (freshly constructed `CameraManager`). -/
def empty (Frame : Type) : CameraManager Frame :=
  { sessions := fun _ => none }

/-- The session that `start_camera` builds and registers for a fresh
channel: zeroed counters, decoder started with the callback bound to this
channel, and the decoder properties read (after the 500 ms first-frame
wait) from `probe`; `now_ms` is the wall clock read for `start_time_ms`. -/
def initialSession (Frame : Type) (channel : Int) (rtsp_url : String)
    (now_ms : Int) (probe : DecoderProbe) : CameraSession Frame :=
  { channel := channel
    rtsp_url := rtsp_url
    decoderStarted := true
    callbackChannel := channel
    latest_annotated_frame := none
    stats :=
      { channel := channel
        rtsp_url := rtsp_url
        is_running := probe.is_running
        width := probe.width
        height := probe.height
        fps := probe.fps
        total_frames := 0
        staff_count := 0
        customer_count := 0
        avg_inference_ms := 0
        start_time_ms := now_ms }
    last_frame_time_ms := 0 }

/-- Models `CameraManager::start_camera(channel, rtsp_url)`: fail (returning
`false`, logged "already running") if the channel is registered; otherwise
build the `initialSession`, start the decoder with the callback bound to
this channel, wait the bounded 500 ms interval for the first frame, read the
decoder properties into the stats, and register the session. -/
def start_camera (m : CameraManager Frame) (channel : Int) (rtsp_url : String)
    (now_ms : Int) (probe : DecoderProbe) :
    Bool × List (MgrEvent Frame) × CameraManager Frame :=
  match m.sessions channel with
  | some _ => (false, [], m)
  | none =>
    (true, [MgrEvent.decoderStart channel rtsp_url channel],
     m.update channel (some (initialSession Frame channel rtsp_url now_ms probe)))

/-- Models `CameraManager::stop_camera(channel)`: fail (returning `false`, logged
"not found") if the channel is absent; otherwise call `decoder->stop()`
(blocking join, external) and erase the session. -/
def stop_camera (m : CameraManager Frame) (channel : Int) :
    Bool × List (MgrEvent Frame) × CameraManager Frame :=
  match m.sessions channel with
  | none => (false, [], m)
  | some _ => (true, [MgrEvent.decoderStop channel], m.update channel none)

/-- The per-session body of `CameraManager::on_frame_received` (lines
112-156): increment `total_frames`; if less than 200 ms elapsed since
`last_frame_time_ms`, return without inference; otherwise stamp
`last_frame_time_ms := now_ms`, run the detector, copy staff/customer
counts, fold the latency into the EWMA
(`avg == 0 ? latency : 0.9*avg + 0.1*latency`) and store the annotated
frame.  Returns whether the detector was invoked.  (The detector oracle is
total; the C++ `catch` around a throwing `infer` would leave exactly the
pre-`infer` state, which the claims do not exercise.) -/
def sessionFrameStep (infer : Frame → InferenceResult)
    (s : CameraSession Frame) (frame : Frame) (now_ms : Int) :
    Bool × CameraSession Frame :=
  let s1 := { s with stats := { s.stats with total_frames := s.stats.total_frames + 1 } }
  if now_ms - s1.last_frame_time_ms < 200 then
    (false, s1)
  else
    let s2 := { s1 with last_frame_time_ms := now_ms }
    let result := infer frame
    let newAvg : ℚ :=
      if s2.stats.avg_inference_ms = 0 then result.inference_time_ms
      else (9 / 10 : ℚ) * s2.stats.avg_inference_ms
             + (1 / 10 : ℚ) * result.inference_time_ms
    let s3 :=
      { s2 with
        stats :=
          { s2.stats with
            staff_count := result.staff_count
            customer_count := result.customer_count
            avg_inference_ms := newAvg }
        latest_annotated_frame := some (draw_detections frame result) }
    (true, s3)

/-- Models `CameraManager::on_frame_received(channel, frame)` (decode-thread
callback): look the channel up under the registry lock; return untouched if
it is gone; otherwise run the per-session body and store the updated
session.  Emits `inferRun frame` exactly when the detector was called. -/
def on_frame_received (infer : Frame → InferenceResult) (m : CameraManager Frame)
    (channel : Int) (frame : Frame) (now_ms : Int) :
    List (MgrEvent Frame) × CameraManager Frame :=
  match m.sessions channel with
  | none => ([], m)
  | some s =>
    let r := sessionFrameStep infer s frame now_ms
    ((if r.1 then [MgrEvent.inferRun frame] else []),
     m.update channel (some r.2))

/-- Deliver a timed sequence of frames to one session, counting how many of
them reached the detector. -/
def runSession (infer : Frame → InferenceResult) (s : CameraSession Frame) :
    List (Frame × Int) → CameraSession Frame × Nat
  | [] => (s, 0)
  | p :: rest =>
    let r := sessionFrameStep infer s p.1 p.2
    let q := runSession infer r.2 rest
    (q.1, (if r.1 then 1 else 0) + q.2)

end CameraManager

/-! Theorems.  Helper lemmas first (shared across claims), then one theorem
per claim, each with its witness where the statement carries a hypothesis. -/

namespace ThreadPool

variable {τ : Type}

/-- Unfolding of one worker iteration inside the drain loop. -/
theorem drainLoop_succ (f : Nat) (p : ThreadPool τ) :
    drainLoop (f + 1) p =
      match workerStep p with
      | (WorkerAct.run t, p1) =>
        let r := drainLoop f p1
        (t :: r.1, r.2)
      | (_, p1) => ([], p1) := rfl

/-- With the stop flag set, the workers execute exactly the queued tasks in
FIFO order and leave the queue empty. -/
theorem drainLoop_stopped :
    ∀ l : List τ,
      drainLoop l.length { tasks_ := l, stop_ := true } =
        (l, { tasks_ := [], stop_ := true }) := by
  intro l
  induction l with
  | nil => rfl
  | cons t l ih =>
    show drainLoop (l.length + 1) { tasks_ := t :: l, stop_ := true } = _
    rw [drainLoop_succ]
    simp [workerStep, ih]

/-- The destructor's drain executes exactly the pending tasks and empties
the queue. -/
theorem shutdown_eq (p : ThreadPool τ) :
    p.shutdown = (p.tasks_, { tasks_ := [], stop_ := true }) := by
  cases p with
  | mk tasks stop => exact drainLoop_stopped tasks

end ThreadPool

/-- C10: a pool worker exits its loop exactly when the stop flag is set and
the task queue is empty; consequently shutting the pool down (setting the
stop flag, waking the workers and joining them) executes every task that was
enqueued before shutdown — each pending task exactly once, in queue order —
and only then do the workers exit: shutdown drains the queue rather than
discarding pending tasks. -/
theorem claim_C10 {τ : Type} [DecidableEq τ] (p : ThreadPool τ) :
    ((ThreadPool.workerStep p).1 = ThreadPool.WorkerAct.exit ↔
      p.stop_ = true ∧ p.tasks_ = []) ∧
    p.shutdown = (p.tasks_, { tasks_ := [], stop_ := true }) ∧
    (∀ t : τ, (p.shutdown).1.count t = p.tasks_.count t) ∧
    (ThreadPool.workerStep (p.shutdown).2).1 = ThreadPool.WorkerAct.exit := by
  refine ⟨?_, ThreadPool.shutdown_eq p, ?_, ?_⟩
  · cases p with
    | mk ts st =>
      cases ts with
      | nil => cases st <;> simp [ThreadPool.workerStep]
      | cons t ts => simp [ThreadPool.workerStep]
  · intro t
    rw [ThreadPool.shutdown_eq]
  · rw [ThreadPool.shutdown_eq]
    simp [ThreadPool.workerStep]

/-- Witness for C10: shutting down a pool with pending tasks [1, 2]
executes exactly them and leaves the stopped empty pool. -/
theorem claim_C10_witness :
    ({ tasks_ := [1, 2], stop_ := false } : ThreadPool Nat).shutdown =
      ([1, 2], { tasks_ := [], stop_ := true }) :=
  (claim_C10 ({ tasks_ := [1, 2], stop_ := false } : ThreadPool Nat)).2.1

/-- C3: after the pool has been shut down (stop flag set), every `enqueue`
fails with the typed `PoolClosed` error delivered to the caller (the C++
`throw std::runtime_error("enqueue on stopped ThreadPool")` modelled as a
typed result), no new pool state with the task appended is produced, and a
task that was never in the queue is never executed by the shutdown drain. -/
theorem claim_C3 {τ : Type} (p : ThreadPool τ) (t : τ) (hstop : p.stop_ = true) :
    p.enqueue t = Except.error PoolError.PoolClosed ∧
    (∀ p1 : ThreadPool τ, p.enqueue t ≠ Except.ok p1) ∧
    (t ∉ p.tasks_ → t ∉ (p.shutdown).1) := by
  refine ⟨?_, ?_, ?_⟩
  · simp [ThreadPool.enqueue, hstop]
  · intro p1
    simp [ThreadPool.enqueue, hstop]
  · intro ht
    rw [ThreadPool.shutdown_eq]
    exact ht

/-- Witness for C3: a concrete stopped pool with tasks `[1, 2]`; enqueueing
`3` fails with `PoolClosed`. -/
theorem claim_C3_witness :
    ({ tasks_ := [1, 2], stop_ := true } : ThreadPool Nat).stop_ = true ∧
    ({ tasks_ := [1, 2], stop_ := true } : ThreadPool Nat).enqueue 3 =
      Except.error PoolError.PoolClosed :=
  ⟨rfl, (claim_C3 { tasks_ := [1, 2], stop_ := true } 3 rfl).1⟩

/-- C5: `start_camera(channel, uri)` fails (the `AlreadyRunning` outcome,
returned `false`) when the channel is already registered, leaving the
registry unchanged and starting no decoder; otherwise it creates the
session, starts its stream worker with the callback bound to that channel,
waits the bounded first-frame interval (the decoder readings `probe` are
taken after it), and registers exactly one session under the channel key,
leaving every other key unchanged. -/
theorem claim_C5 {Frame : Type} (m : CameraManager Frame) (channel : Int)
    (uri : String) (now : Int) (probe : DecoderProbe) :
    (∀ s, m.sessions channel = some s →
      m.start_camera channel uri now probe = (false, [], m)) ∧
    (m.sessions channel = none →
      m.start_camera channel uri now probe =
        (true, [MgrEvent.decoderStart channel uri channel],
         m.update channel
           (some (CameraManager.initialSession Frame channel uri now probe))) ∧
      (m.update channel
          (some (CameraManager.initialSession Frame channel uri now probe))).sessions
            channel
        = some (CameraManager.initialSession Frame channel uri now probe) ∧
      (∀ c, c ≠ channel →
        (m.update channel
            (some (CameraManager.initialSession Frame channel uri now probe))).sessions c
          = m.sessions c) ∧
      (CameraManager.initialSession Frame channel uri now probe).decoderStarted = true ∧
      (CameraManager.initialSession Frame channel uri now probe).callbackChannel = channel ∧
      (CameraManager.initialSession Frame channel uri now probe).stats.total_frames = 0 ∧
      (CameraManager.initialSession Frame channel uri now probe).stats.avg_inference_ms = 0 ∧
      (CameraManager.initialSession Frame channel uri now probe).latest_annotated_frame = none ∧
      (CameraManager.initialSession Frame channel uri now probe).stats.start_time_ms = now) := by
  constructor
  · intro s h
    simp [CameraManager.start_camera, h]
  · intro h
    refine ⟨?_, ?_, ?_, rfl, rfl, rfl, rfl, rfl, rfl⟩
    · simp [CameraManager.start_camera, h]
    · simp [CameraManager.update]
    · intro c hc
      simp [CameraManager.update, hc]

/-- Witness for C5: starting channel 5 on an empty registry registers the
freshly built session under key 5. -/
theorem claim_C5_witness :
    (CameraManager.empty Unit).sessions 5 = none ∧
    (CameraManager.empty Unit).start_camera 5 "rtsp://a" 7 ⟨640, 480, 25, true⟩ =
      (true, [MgrEvent.decoderStart 5 "rtsp://a" 5],
       (CameraManager.empty Unit).update 5
         (some (CameraManager.initialSession Unit 5 "rtsp://a" 7 ⟨640, 480, 25, true⟩))) :=
  ⟨rfl,
   ((claim_C5 (CameraManager.empty Unit) 5 "rtsp://a" 7 ⟨640, 480, 25, true⟩).2 rfl).1⟩

/-- C6: `stop_camera(channel)` fails (the `NotFound` outcome, returned
`false`) when no session is registered under the channel, leaving the
registry unchanged and stopping nothing; otherwise it requests the
decoder's cooperative stop (the blocking join on the decode thread) and
removes the session, so the channel is afterwards absent from the registry
while every other key is unchanged. -/
theorem claim_C6 {Frame : Type} (m : CameraManager Frame) (channel : Int) :
    (m.sessions channel = none → m.stop_camera channel = (false, [], m)) ∧
    (∀ s, m.sessions channel = some s →
      m.stop_camera channel =
        (true, [MgrEvent.decoderStop channel], m.update channel none) ∧
      (m.update channel none).sessions channel = none ∧
      (∀ c, c ≠ channel → (m.update channel none).sessions c = m.sessions c)) := by
  constructor
  · intro h
    simp [CameraManager.stop_camera, h]
  · intro s h
    refine ⟨?_, ?_, ?_⟩
    · simp [CameraManager.stop_camera, h]
    · simp [CameraManager.update]
    · intro c hc
      simp [CameraManager.update, hc]

/-- Witness for C6: `stop_camera(7)` on a never-started channel fails and
leaves the (empty) registry unchanged. -/
theorem claim_C6_witness :
    (CameraManager.empty Unit).sessions 7 = none ∧
    (CameraManager.empty Unit).stop_camera 7 = (false, [], CameraManager.empty Unit) :=
  ⟨rfl, (claim_C6 (CameraManager.empty Unit) 7).1 rfl⟩

/-- C9: a frame delivered to `on_frame_received` for a channel that is not
registered (for example after `stop_camera` removed the session) returns
immediately with no external call and no state change: no `totalFrames`
increment, no detector invocation, no stats update and no snapshot update. -/
theorem claim_C9 {Frame : Type} (infer : Frame → InferenceResult)
    (m : CameraManager Frame) (channel : Int) (frame : Frame) (now : Int)
    (h : m.sessions channel = none) :
    CameraManager.on_frame_received infer m channel frame now = ([], m) := by
  simp [CameraManager.on_frame_received, h]

/-- Witness for C9: a frame for the unregistered channel 3 of the empty
registry is dropped without any effect. -/
theorem claim_C9_witness :
    (CameraManager.empty Unit).sessions 3 = none ∧
    CameraManager.on_frame_received
        (fun _ => { detections := [], inference_time_ms := 0,
                    staff_count := 0, customer_count := 0 })
        (CameraManager.empty Unit) 3 () 0 = ([], CameraManager.empty Unit) :=
  ⟨rfl,
   claim_C9
     (fun _ => { detections := [], inference_time_ms := 0,
                 staff_count := 0, customer_count := 0 })
     (CameraManager.empty Unit) 3 () 0 rfl⟩

namespace CameraManager

variable {Frame : Type}

/-- A frame inside the throttle window: only `total_frames` is updated. -/
theorem sessionFrameStep_not_fired (infer : Frame → InferenceResult)
    (s : CameraSession Frame) (frame : Frame) (now : Int)
    (h : now - s.last_frame_time_ms < 200) :
    sessionFrameStep infer s frame now =
      (false,
       { s with stats := { s.stats with total_frames := s.stats.total_frames + 1 } }) := by
  simp [sessionFrameStep, h]

/-- A frame past the throttle window: the detector runs and the session is
fully updated. -/
theorem sessionFrameStep_fired (infer : Frame → InferenceResult)
    (s : CameraSession Frame) (frame : Frame) (now : Int)
    (h : 200 ≤ now - s.last_frame_time_ms) :
    sessionFrameStep infer s frame now =
      (true,
       { s with
         last_frame_time_ms := now
         stats :=
           { s.stats with
             total_frames := s.stats.total_frames + 1
             staff_count := (infer frame).staff_count
             customer_count := (infer frame).customer_count
             avg_inference_ms :=
               if s.stats.avg_inference_ms = 0 then (infer frame).inference_time_ms
               else 9 / 10 * s.stats.avg_inference_ms
                      + 1 / 10 * (infer frame).inference_time_ms }
         latest_annotated_frame := some (draw_detections frame (infer frame)) }) := by
  have h2 : ¬(now - s.last_frame_time_ms < 200) := by omega
  simp [sessionFrameStep, h2]

/-- The detector is invoked exactly when 200 ms have elapsed. -/
theorem sessionFrameStep_fired_iff (infer : Frame → InferenceResult)
    (s : CameraSession Frame) (frame : Frame) (now : Int) :
    (sessionFrameStep infer s frame now).1 = true ↔
      200 ≤ now - s.last_frame_time_ms := by
  by_cases h : now - s.last_frame_time_ms < 200
  · rw [sessionFrameStep_not_fired infer s frame now h]
    simp
    omega
  · rw [sessionFrameStep_fired infer s frame now (by omega)]
    simp
    omega

/-- Every delivered frame increments `total_frames`, throttled or not. -/
theorem sessionFrameStep_total (infer : Frame → InferenceResult)
    (s : CameraSession Frame) (frame : Frame) (now : Int) :
    (sessionFrameStep infer s frame now).2.stats.total_frames =
      s.stats.total_frames + 1 := by
  by_cases h : now - s.last_frame_time_ms < 200
  · rw [sessionFrameStep_not_fired infer s frame now h]
  · rw [sessionFrameStep_fired infer s frame now (by omega)]

/-- Case analysis of one frame delivery: either the detector fired (the
throttle window had elapsed, the stamp moves to `now`) or it did not (the
stamp is unchanged). -/
theorem sessionFrameStep_cases (infer : Frame → InferenceResult)
    (s : CameraSession Frame) (frame : Frame) (now : Int) :
    ((sessionFrameStep infer s frame now).1 = true ∧
       200 ≤ now - s.last_frame_time_ms ∧
       (sessionFrameStep infer s frame now).2.last_frame_time_ms = now) ∨
    ((sessionFrameStep infer s frame now).1 = false ∧
       now - s.last_frame_time_ms < 200 ∧
       (sessionFrameStep infer s frame now).2.last_frame_time_ms =
         s.last_frame_time_ms) := by
  by_cases h : now - s.last_frame_time_ms < 200
  · right
    rw [sessionFrameStep_not_fired infer s frame now h]
    exact ⟨rfl, h, rfl⟩
  · left
    rw [sessionFrameStep_fired infer s frame now (by omega)]
    exact ⟨rfl, by omega, rfl⟩

/-- The EWMA update on a detector run, exactly as coded. -/
theorem sessionFrameStep_avg (infer : Frame → InferenceResult)
    (s : CameraSession Frame) (frame : Frame) (now : Int)
    (h : 200 ≤ now - s.last_frame_time_ms) :
    (sessionFrameStep infer s frame now).2.stats.avg_inference_ms =
      (if s.stats.avg_inference_ms = 0 then (infer frame).inference_time_ms
       else 9 / 10 * s.stats.avg_inference_ms
              + 1 / 10 * (infer frame).inference_time_ms) := by
  rw [sessionFrameStep_fired infer s frame now h]

/-- Unfolding of frame delivery over a cons cell: the final session. -/
theorem runSession_cons_fst (infer : Frame → InferenceResult)
    (s : CameraSession Frame) (p : Frame × Int) (rest : List (Frame × Int)) :
    (runSession infer s (p :: rest)).1 =
      (runSession infer (sessionFrameStep infer s p.1 p.2).2 rest).1 := rfl

/-- Unfolding of frame delivery over a cons cell: the detector-run count. -/
theorem runSession_cons_snd (infer : Frame → InferenceResult)
    (s : CameraSession Frame) (p : Frame × Int) (rest : List (Frame × Int)) :
    (runSession infer s (p :: rest)).2 =
      (if (sessionFrameStep infer s p.1 p.2).1 then 1 else 0) +
        (runSession infer (sessionFrameStep infer s p.1 p.2).2 rest).2 := rfl

/-- Frame delivery adds one to `total_frames` per frame, throttled or not. -/
theorem runSession_total (infer : Frame → InferenceResult) :
    ∀ (l : List (Frame × Int)) (s : CameraSession Frame),
      (runSession infer s l).1.stats.total_frames =
        s.stats.total_frames + l.length := by
  intro l
  induction l with
  | nil => intro s; simp [runSession]
  | cons p rest ih =>
    intro s
    rw [runSession_cons_fst]
    simp only [List.length_cons]
    rw [ih, sessionFrameStep_total]
    push_cast
    ring

/-- If no frame fired the detector, the throttle stamp is unchanged. -/
theorem runSession_count_zero_last (infer : Frame → InferenceResult) :
    ∀ (l : List (Frame × Int)) (s : CameraSession Frame),
      (runSession infer s l).2 = 0 →
      (runSession infer s l).1.last_frame_time_ms = s.last_frame_time_ms := by
  intro l
  induction l with
  | nil => intro s _; rfl
  | cons p rest ih =>
    intro s hc
    rw [runSession_cons_snd] at hc
    rw [runSession_cons_fst]
    rcases sessionFrameStep_cases infer s p.1 p.2 with ⟨hb, _, _⟩ | ⟨hb, _, hlast⟩
    · rw [hb] at hc
      simp at hc
    · rw [hb] at hc
      simp only [if_neg (by simp : ¬(false = true)), Nat.zero_add] at hc
      rw [ih _ hc, hlast]

/-- Each detector run moves the throttle stamp forward by at least the
200 ms window. -/
theorem runSession_bump (infer : Frame → InferenceResult) :
    ∀ (l : List (Frame × Int)) (s : CameraSession Frame),
      s.last_frame_time_ms + 200 * ((runSession infer s l).2 : Int) ≤
        (runSession infer s l).1.last_frame_time_ms := by
  intro l
  induction l with
  | nil => intro s; simp [runSession]
  | cons p rest ih =>
    intro s
    rw [runSession_cons_fst, runSession_cons_snd]
    have hb2 := ih ((sessionFrameStep infer s p.1 p.2).2)
    rcases sessionFrameStep_cases infer s p.1 p.2 with ⟨hb, hge, hlast⟩ | ⟨hb, _, hlast⟩
    · rw [hb]
      rw [hlast] at hb2
      simp only [if_pos rfl]
      push_cast
      omega
    · rw [hb]
      rw [hlast] at hb2
      simp only [if_neg (by simp : ¬(false = true))]
      push_cast
      omega

/-- After at least one detector run, the throttle stamp is one of the frame
times, hence bounded by any upper bound on them. -/
theorem runSession_last_le (infer : Frame → InferenceResult) :
    ∀ (l : List (Frame × Int)) (s : CameraSession Frame) (B : Int),
      (∀ p ∈ l, p.2 ≤ B) → 1 ≤ (runSession infer s l).2 →
      (runSession infer s l).1.last_frame_time_ms ≤ B := by
  intro l
  induction l with
  | nil => intro s B _ hc; simp [runSession] at hc
  | cons p rest ih =>
    intro s B hB hc
    have hpB : p.2 ≤ B := hB p (by simp)
    have hrest : ∀ q ∈ rest, q.2 ≤ B := fun q hq => hB q (by simp [hq])
    rw [runSession_cons_snd] at hc
    rw [runSession_cons_fst]
    rcases sessionFrameStep_cases infer s p.1 p.2 with ⟨hb, _, hlast⟩ | ⟨hb, _, _⟩
    · rcases Nat.eq_zero_or_pos
          (runSession infer ((sessionFrameStep infer s p.1 p.2).2) rest).2 with h0 | hpos
      · rw [runSession_count_zero_last infer rest _ h0, hlast]
        exact hpB
      · exact ih _ B hrest hpos
    · rw [hb] at hc
      simp only [if_neg (by simp : ¬(false = true)), Nat.zero_add] at hc
      exact ih _ B hrest hc

/-- With `c + 1` detector runs over frames all timed at least `tmin`, the
final throttle stamp is at least `tmin + 200 c`. -/
theorem runSession_lower (infer : Frame → InferenceResult) :
    ∀ (l : List (Frame × Int)) (s : CameraSession Frame) (tmin : Int) (c : Nat),
      (∀ p ∈ l, tmin ≤ p.2) → (runSession infer s l).2 = c + 1 →
      tmin + 200 * (c : Int) ≤ (runSession infer s l).1.last_frame_time_ms := by
  intro l
  induction l with
  | nil => intro s tmin c _ hc; simp [runSession] at hc
  | cons p rest ih =>
    intro s tmin c hmin hc
    have hpmin : tmin ≤ p.2 := hmin p (by simp)
    have hrest : ∀ q ∈ rest, tmin ≤ q.2 := fun q hq => hmin q (by simp [hq])
    rw [runSession_cons_snd] at hc
    rw [runSession_cons_fst]
    rcases sessionFrameStep_cases infer s p.1 p.2 with ⟨hb, _, hlast⟩ | ⟨hb, _, _⟩
    · rw [hb] at hc
      simp at hc
      have hcount : (runSession infer ((sessionFrameStep infer s p.1 p.2).2) rest).2 = c := by
        omega
      have hb2 := runSession_bump infer rest ((sessionFrameStep infer s p.1 p.2).2)
      rw [hcount, hlast] at hb2
      omega
    · rw [hb] at hc
      simp only [if_neg (by simp : ¬(false = true)), Nat.zero_add] at hc
      exact ih _ tmin c hrest hc

end CameraManager

/-- C1: for every frame delivered to `on_frame_received` for a registered
channel, `total_frames` is incremented unconditionally; the detector is
invoked (the `inferRun` event) if and only if at least the 200 ms throttle
window has elapsed since the session's `last_frame_time_ms`; on a detector
run the stamp is set to the current timestamp (and is untouched otherwise);
consequently over 20 frames delivered at 50 ms intervals spanning 1000 ms
the detector runs at most 5 times while `total_frames` grows by 20. -/
theorem claim_C1 {Frame : Type} (infer : Frame → InferenceResult)
    (m : CameraManager Frame) (channel : Int) (s : CameraSession Frame)
    (frame : Frame) (now : Int) (hreg : m.sessions channel = some s) :
    CameraManager.on_frame_received infer m channel frame now =
      ((if (CameraManager.sessionFrameStep infer s frame now).1 then
          [MgrEvent.inferRun frame] else []),
       m.update channel (some (CameraManager.sessionFrameStep infer s frame now).2)) ∧
    (CameraManager.sessionFrameStep infer s frame now).2.stats.total_frames =
      s.stats.total_frames + 1 ∧
    ((CameraManager.sessionFrameStep infer s frame now).1 = true ↔
      200 ≤ now - s.last_frame_time_ms) ∧
    (200 ≤ now - s.last_frame_time_ms →
      (CameraManager.sessionFrameStep infer s frame now).2.last_frame_time_ms = now) ∧
    (now - s.last_frame_time_ms < 200 →
      (CameraManager.sessionFrameStep infer s frame now).1 = false ∧
      (CameraManager.sessionFrameStep infer s frame now).2.last_frame_time_ms =
        s.last_frame_time_ms) ∧
    (∀ (l : List (Frame × Int)) (t0 : Int),
      l.length = 20 →
      (∀ i (hi : i < l.length), (l.get ⟨i, hi⟩).2 = t0 + 50 * (i : Int)) →
      (CameraManager.runSession infer s l).1.stats.total_frames =
        s.stats.total_frames + 20 ∧
      (CameraManager.runSession infer s l).2 ≤ 5) := by
  refine ⟨?_, CameraManager.sessionFrameStep_total infer s frame now,
    CameraManager.sessionFrameStep_fired_iff infer s frame now, ?_, ?_, ?_⟩
  · simp [CameraManager.on_frame_received, hreg]
  · intro h
    rcases CameraManager.sessionFrameStep_cases infer s frame now with
      ⟨_, _, hlast⟩ | ⟨_, hlt, _⟩
    · exact hlast
    · omega
  · intro h
    rcases CameraManager.sessionFrameStep_cases infer s frame now with
      ⟨_, hge, _⟩ | ⟨hb, _, hlast⟩
    · omega
    · exact ⟨hb, hlast⟩
  · intro l t0 hlen htime
    have hmem : ∀ p ∈ l, t0 ≤ p.2 ∧ p.2 ≤ t0 + 950 := by
      intro p hp
      obtain ⟨i, hi⟩ := List.mem_iff_get.mp hp
      have ht := htime i.1 i.2
      have hi20 : i.1 < 20 := by
        have := i.2
        omega
      rw [Fin.eta, hi] at ht
      constructor
      · rw [ht]
        have : (0 : Int) ≤ 50 * (i.1 : Int) := by positivity
        omega
      · rw [ht]
        have : (i.1 : Int) ≤ 19 := by exact_mod_cast Nat.le_of_lt_succ hi20
        omega
    constructor
    · rw [CameraManager.runSession_total infer l s, hlen]
      norm_num
    · cases hcnt : (CameraManager.runSession infer s l).2 with
      | zero => omega
      | succ c =>
        have hlow := CameraManager.runSession_lower infer l s t0 c
          (fun p hp => (hmem p hp).1) hcnt
        have hup := CameraManager.runSession_last_le infer l s (t0 + 950)
          (fun p hp => (hmem p hp).2) (by omega)
        omega

/-- Witness for C1: one frame delivered at time 300 to the registered
channel 0 of a one-session registry increments its `total_frames`. -/
theorem claim_C1_witness :
    (((CameraManager.empty Unit).update 0
        (some (CameraManager.initialSession Unit 0 "u" 0 ⟨0, 0, 0, true⟩))).sessions 0
      = some (CameraManager.initialSession Unit 0 "u" 0 ⟨0, 0, 0, true⟩)) ∧
    (CameraManager.sessionFrameStep (fun _ => latencyOracle 1)
        (CameraManager.initialSession Unit 0 "u" 0 ⟨0, 0, 0, true⟩) () 300).2.stats.total_frames
      = (CameraManager.initialSession Unit 0 "u" 0 ⟨0, 0, 0, true⟩).stats.total_frames + 1 :=
  ⟨rfl,
   (claim_C1 (fun _ => latencyOracle 1)
      ((CameraManager.empty Unit).update 0
        (some (CameraManager.initialSession Unit 0 "u" 0 ⟨0, 0, 0, true⟩)))
      0 (CameraManager.initialSession Unit 0 "u" 0 ⟨0, 0, 0, true⟩) () 300 rfl).2.1⟩

/-- Counterexample to C2 as stated: in a fresh session the first detector
call observes latency L1 = 0, so `avg_inference_ms` stays 0 and the second
call (latency L2 = 10) takes the `avg == 0` branch again, setting the
average to 10, not to the claimed 0.9*L1 + 0.1*L2 = 1. -/
theorem claim_C2_cex :
    (CameraManager.sessionFrameStep latencyOracle
        (CameraManager.initialSession ℚ 1 "u" 0 ⟨0, 0, 0, true⟩) 0 1000).1 = true ∧
    (CameraManager.sessionFrameStep latencyOracle
        (CameraManager.initialSession ℚ 1 "u" 0 ⟨0, 0, 0, true⟩) 0 1000).2.stats.avg_inference_ms
      = 0 ∧
    (CameraManager.sessionFrameStep latencyOracle
        (CameraManager.sessionFrameStep latencyOracle
            (CameraManager.initialSession ℚ 1 "u" 0 ⟨0, 0, 0, true⟩) 0 1000).2
        10 1300).1 = true ∧
    (CameraManager.sessionFrameStep latencyOracle
        (CameraManager.sessionFrameStep latencyOracle
            (CameraManager.initialSession ℚ 1 "u" 0 ⟨0, 0, 0, true⟩) 0 1000).2
        10 1300).2.stats.avg_inference_ms = 10 ∧
    ¬((CameraManager.sessionFrameStep latencyOracle
        (CameraManager.sessionFrameStep latencyOracle
            (CameraManager.initialSession ℚ 1 "u" 0 ⟨0, 0, 0, true⟩) 0 1000).2
        10 1300).2.stats.avg_inference_ms = 9 / 10 * 0 + 1 / 10 * 10) := by
  refine ⟨rfl, rfl, rfl, rfl, ?_⟩
  intro h
  rw [show (CameraManager.sessionFrameStep latencyOracle
        (CameraManager.sessionFrameStep latencyOracle
            (CameraManager.initialSession ℚ 1 "u" 0 ⟨0, 0, 0, true⟩) 0 1000).2
        10 1300).2.stats.avg_inference_ms = 10 from rfl] at h
  norm_num at h

/-- C2 (amended): the first detector call of a session (EWMA average still
0) sets `avg_inference_ms` to exactly L1; provided L1 is nonzero, the next
detector call with latency L2 sets it to exactly 0.9*L1 + 0.1*L2 (if
L1 = 0 the zero average is treated as uninitialised and the second call
sets exactly L2); in general every update computes
`avg = (avg == 0 ? latency : 0.9*avg + 0.1*latency)`. -/
theorem claim_C2 {Frame : Type} (infer : Frame → InferenceResult)
    (s : CameraSession Frame) (f1 f2 : Frame) (t1 t2 : Int)
    (h0 : s.stats.avg_inference_ms = 0)
    (h1 : 200 ≤ t1 - s.last_frame_time_ms)
    (h2 : 200 ≤ t2 -
      (CameraManager.sessionFrameStep infer s f1 t1).2.last_frame_time_ms) :
    (∀ (s1 : CameraSession Frame) (fr : Frame) (t : Int),
      200 ≤ t - s1.last_frame_time_ms →
      (CameraManager.sessionFrameStep infer s1 fr t).2.stats.avg_inference_ms =
        (if s1.stats.avg_inference_ms = 0 then (infer fr).inference_time_ms
         else 9 / 10 * s1.stats.avg_inference_ms
                + 1 / 10 * (infer fr).inference_time_ms)) ∧
    (CameraManager.sessionFrameStep infer s f1 t1).2.stats.avg_inference_ms =
      (infer f1).inference_time_ms ∧
    ((infer f1).inference_time_ms ≠ 0 →
      (CameraManager.sessionFrameStep infer
          (CameraManager.sessionFrameStep infer s f1 t1).2 f2 t2).2.stats.avg_inference_ms =
        9 / 10 * (infer f1).inference_time_ms
          + 1 / 10 * (infer f2).inference_time_ms) := by
  have havg1 : (CameraManager.sessionFrameStep infer s f1 t1).2.stats.avg_inference_ms =
      (infer f1).inference_time_ms := by
    rw [CameraManager.sessionFrameStep_avg infer s f1 t1 h1, if_pos h0]
  refine ⟨?_, havg1, ?_⟩
  · intro s1 fr t ht
    exact CameraManager.sessionFrameStep_avg infer s1 fr t ht
  · intro hL1
    rw [CameraManager.sessionFrameStep_avg infer _ f2 t2 h2, havg1, if_neg hL1]

/-- Witness for C2: with a fresh session and latencies L1 = 4, L2 = 6
(frames timed 1000 and 1300), the first detector call sets the EWMA average
to exactly 4. -/
theorem claim_C2_witness :
    (CameraManager.initialSession ℚ 1 "u" 0 ⟨0, 0, 0, true⟩).stats.avg_inference_ms = 0 ∧
    (CameraManager.sessionFrameStep latencyOracle
        (CameraManager.initialSession ℚ 1 "u" 0 ⟨0, 0, 0, true⟩) 4 1000).2.stats.avg_inference_ms
      = (latencyOracle 4).inference_time_ms :=
  ⟨rfl,
   (claim_C2 latencyOracle (CameraManager.initialSession ℚ 1 "u" 0 ⟨0, 0, 0, true⟩)
      4 6 1000 1300 rfl (by decide) (by decide)).2.1⟩

namespace LockFreeQueue

variable {T : Type}

/-- Unfolding of one `push` retry iteration. -/
theorem pushLoop_succ (newAddr f : Nat) (q : LockFreeQueue T) :
    pushLoop newAddr (f + 1) q =
      match q.deref q.tail_ with
      | none => q
      | some tn =>
        match tn.next with
        | none =>
            { q with
              heap := q.heap.set q.tail_ (some { tn with next := some newAddr })
              tail_ := newAddr
              size_ := q.size_ + 1 }
        | some nxt => pushLoop newAddr f { q with tail_ := nxt } := rfl

/-- Unfolding of one `pop` retry iteration. -/
theorem popLoop_succ (f : Nat) (q : LockFreeQueue T) :
    popLoop (f + 1) q =
      match q.deref q.head_ with
      | none => (none, q)
      | some hn =>
        if q.head_ = q.tail_ then
          match hn.next with
          | none => (none, q)
          | some nxt => popLoop f { q with tail_ := nxt }
        else
          match hn.next with
          | none => (none, q)
          | some nxt =>
            match q.deref nxt with
            | none => (none, q)
            | some nn =>
              match nn.data with
              | none => (none, q)
              | some v =>
                  (some v,
                   { q with
                     head_ := nxt
                     heap := q.heap.set q.head_ none
                     size_ := q.size_ - 1 }) := rfl

/-- On a state whose tail node is the last linked node, `push` links the new
node after it and swings the tail in one pass. -/
theorem push_eq (q : LockFreeQueue T) (v : T) (tn : Node T)
    (hlen : q.tail_ + 1 = q.heap.length)
    (htn : q.deref q.tail_ = some tn) (hnext : tn.next = none) :
    q.push v =
      { heap := (q.heap ++ [some ({ data := some v, next := none } : Node T)]).set q.tail_
          (some { data := tn.data, next := some q.heap.length }),
        head_ := q.head_,
        tail_ := q.heap.length,
        size_ := q.size_ + 1 } := by
  have htl : q.tail_ < q.heap.length := by omega
  show pushLoop q.heap.length
      (q.heap ++ [some ({ data := some v, next := none } : Node T)]).length
      { q with heap := q.heap ++ [some ({ data := some v, next := none } : Node T)] } = _
  have hlen2 : (q.heap ++ [some ({ data := some v, next := none } : Node T)]).length =
      q.heap.length + 1 := by simp
  rw [hlen2, pushLoop_succ]
  have hd : ({ q with heap := q.heap ++ [some ({ data := some v, next := none } : Node T)] } :
      LockFreeQueue T).deref q.tail_ = some tn := by
    simp only [deref] at htn ⊢
    rw [List.getElem?_append_left htl]
    exact htn
  rw [hd]
  simp [hnext]

/-- Pointwise description of the heap after a `push`: the old tail node now
links to the new node, the new node carries the pushed payload, and every
other address is untouched. -/
theorem deref_push (q : LockFreeQueue T) (v : T) (tn : Node T)
    (hlen : q.tail_ + 1 = q.heap.length)
    (htn : q.deref q.tail_ = some tn) (hnext : tn.next = none) (i : Nat) :
    (q.push v).deref i =
      if i = q.tail_ then some { data := tn.data, next := some q.heap.length }
      else if i = q.heap.length then some ({ data := some v, next := none } : Node T)
      else q.deref i := by
  rw [push_eq q v tn hlen htn hnext]
  have htl : q.tail_ < (q.heap ++ [some ({ data := some v, next := none } : Node T)]).length := by
    simp
    omega
  rcases eq_or_ne i q.tail_ with rfl | hne1
  · simp only [deref, if_pos rfl]
    rw [List.getElem?_set_self htl]
    rfl
  · rw [if_neg hne1]
    simp only [deref]
    rw [List.getElem?_set_ne (fun h => hne1 h.symm)]
    rcases eq_or_ne i q.heap.length with rfl | hne2
    · rw [if_pos rfl, List.getElem?_concat_length]
      rfl
    · rw [if_neg hne2]
      rcases Nat.lt_or_ge i q.heap.length with hlt | hge
      · rw [List.getElem?_append_left hlt]
      · have h1 : (q.heap ++ [some ({ data := some v, next := none } : Node T)]).length ≤ i := by
          simp
          omega
        rw [List.getElem?_eq_none h1, List.getElem?_eq_none hge]

/-- The freshly constructed queue satisfies the structural invariant. -/
theorem Inv_new : Inv (new T) := by
  refine ⟨rfl, Nat.le_refl 0, ?_, ?_, ?_, ?_, rfl⟩
  · intro i hi
    exact absurd hi (Nat.not_lt_zero i)
  · intro i h1 h2
    exact absurd h2 (Nat.not_lt_zero i)
  · exact ⟨{ data := none, next := none }, rfl, rfl⟩
  · intro i h1 h2
    simp only [new] at h1 h2
    omega

/-- The freshly constructed queue represents the empty list. -/
theorem Sim_new : Sim (new T) [] := by
  refine ⟨Inv_new, rfl, ?_⟩
  intro j
  simp only [valAt, deref, new]
  rw [List.getElem?_eq_none (by simp)]
  rfl

/-- Pushing `v` onto a queue representing `l` yields a queue representing
`l ++ [v]`. -/
theorem Sim_push {q : LockFreeQueue T} {l : List T} (v : T) (hs : Sim q l) :
    Sim (q.push v) (l ++ [v]) := by
  obtain ⟨⟨hlen, hht, hfree, hchain, ⟨tn, htn, hnext⟩, hdata, hsz⟩, htail, hval⟩ := hs
  have hd := deref_push q v tn hlen htn hnext
  have hpush := push_eq q v tn hlen htn hnext
  have hhead2 : (q.push v).head_ = q.head_ := by rw [hpush]
  have htail2 : (q.push v).tail_ = q.heap.length := by rw [hpush]
  have hsize2 : (q.push v).size_ = q.size_ + 1 := by rw [hpush]
  have hheapq : (q.push v).heap =
      (q.heap ++ [some ({ data := some v, next := none } : Node T)]).set q.tail_
        (some { data := tn.data, next := some q.heap.length }) := by rw [hpush]
  have hheap2 : (q.push v).heap.length = q.heap.length + 1 := by
    rw [hheapq]
    simp
  refine ⟨⟨?_, ?_, ?_, ?_, ?_, ?_, ?_⟩, ?_, ?_⟩
  · rw [htail2, hheap2]
  · rw [hhead2, htail2]
    omega
  · intro i hi
    rw [hhead2] at hi
    rw [hheapq]
    rw [List.getElem?_set_ne (by omega : q.tail_ ≠ i)]
    rw [List.getElem?_append_left (by omega : i < q.heap.length)]
    exact hfree i hi
  · intro i h1 h2
    rw [hhead2] at h1
    rw [htail2] at h2
    rw [hd i]
    rcases eq_or_ne i q.tail_ with rfl | hne1
    · rw [if_pos rfl]
      exact ⟨_, rfl, by rw [hlen]⟩
    · rw [if_neg hne1, if_neg (by omega : ¬(i = q.heap.length))]
      exact hchain i h1 (by omega)
  · refine ⟨{ data := some v, next := none }, ?_, rfl⟩
    rw [htail2, hd q.heap.length]
    rw [if_neg (by omega : ¬(q.heap.length = q.tail_)), if_pos rfl]
  · intro i h1 h2
    rw [hhead2] at h1
    rw [htail2] at h2
    rw [hd i]
    rcases eq_or_ne i q.tail_ with rfl | hne1
    · obtain ⟨n0, w, hn0, hw⟩ := hdata q.tail_ h1 (Nat.le_refl _)
      rw [htn] at hn0
      injection hn0 with hn0
      subst hn0
      rw [if_pos rfl]
      exact ⟨_, w, rfl, hw⟩
    · rcases eq_or_ne i q.heap.length with rfl | hne2
      · rw [if_neg hne1, if_pos rfl]
        exact ⟨_, v, rfl, rfl⟩
      · rw [if_neg hne1, if_neg hne2]
        exact hdata i h1 (by omega)
  · rw [hsize2, htail2, hhead2]
    omega
  · rw [htail2, hhead2]
    simp only [List.length_append, List.length_cons, List.length_nil]
    omega
  · intro j
    rw [hhead2]
    simp only [valAt]
    rw [hd (q.head_ + 1 + j)]
    rcases lt_trichotomy j l.length with hj | hj | hj
    · rw [List.getElem?_append_left hj]
      by_cases he : q.head_ + 1 + j = q.tail_
      · rw [if_pos he]
        have hv := hval j
        rw [valAt, he, htn] at hv
        exact hv
      · rw [if_neg he, if_neg (by omega : ¬(q.head_ + 1 + j = q.heap.length))]
        exact hval j
    · subst hj
      rw [if_neg (by omega), if_pos (by omega)]
      rw [List.getElem?_concat_length]
      rfl
    · rw [if_neg (by omega), if_neg (by omega)]
      have h1 : q.heap.length ≤ q.head_ + 1 + j := by omega
      have h2 : (l ++ [v]).length ≤ j := by
        simp only [List.length_append, List.length_cons, List.length_nil]
        omega
      simp only [deref]
      rw [List.getElem?_eq_none h1, List.getElem?_eq_none h2]
      rfl

/-- On an empty observation (head = tail, no next node), one pop iteration
returns not-found without touching the state, whatever the fuel. -/
theorem popLoop_empty (q : LockFreeQueue T) (f : Nat) (tn : Node T)
    (htn : q.deref q.tail_ = some tn) (hnext : tn.next = none)
    (hht : q.head_ = q.tail_) :
    popLoop (f + 1) q = (none, q) := by
  rw [popLoop_succ, hht, htn]
  simp [hnext]

/-- On a nonempty queue, one pop iteration copies the payload of the node
after head, advances head to it, frees the old head node and decrements the
size counter, whatever the fuel. -/
theorem popLoop_cons (q : LockFreeQueue T) (f : Nat) (hinv : Inv q)
    (hlt : q.head_ < q.tail_) :
    ∃ hn nn : Node T, ∃ w : T,
      q.deref q.head_ = some hn ∧ hn.next = some (q.head_ + 1) ∧
      q.deref (q.head_ + 1) = some nn ∧ nn.data = some w ∧
      popLoop (f + 1) q =
        (some w,
         { q with
           head_ := q.head_ + 1
           heap := q.heap.set q.head_ none
           size_ := q.size_ - 1 }) := by
  obtain ⟨hlen, hht, hfree, hchain, ⟨tn, htn, hnext⟩, hdata, hsz⟩ := hinv
  obtain ⟨hn, hhn, hhnext⟩ := hchain q.head_ (Nat.le_refl _) hlt
  obtain ⟨nn, w, hnn, hnw⟩ := hdata (q.head_ + 1) (Nat.le_refl _) (by omega)
  refine ⟨hn, nn, w, hhn, hhnext, hnn, hnw, ?_⟩
  rw [popLoop_succ, hhn]
  simp [hhnext, hnn, hnw, Nat.ne_of_lt hlt]

/-- A pop on an empty queue returns not-found and leaves the state alone. -/
theorem pop_empty (q : LockFreeQueue T) (hinv : Inv q)
    (hht : q.head_ = q.tail_) : q.pop = (none, q) := by
  obtain ⟨tn, htn, hnext⟩ := hinv.2.2.2.2.1
  exact popLoop_empty q q.heap.length tn htn hnext hht

/-- The pop loop decides in its first iteration on any invariant state:
the fuel beyond one iteration is irrelevant (pop never blocks). -/
theorem popLoop_fuel (q : LockFreeQueue T) (hinv : Inv q) (f : Nat) :
    popLoop (f + 1) q = q.pop := by
  rcases Nat.eq_or_lt_of_le hinv.2.1 with he | hlt
  · obtain ⟨tn, htn, hnext⟩ := hinv.2.2.2.2.1
    rw [popLoop_empty q f tn htn hnext he, pop_empty q hinv he]
  · obtain ⟨hnA, nnA, wA, _, _, hnnA, hnwA, heqA⟩ := popLoop_cons q f hinv hlt
    obtain ⟨hnB, nnB, wB, _, _, hnnB, hnwB, heqB⟩ :=
      popLoop_cons q q.heap.length hinv hlt
    rw [hnnA] at hnnB
    injection hnnB with hnnB
    subst hnnB
    rw [hnwA] at hnwB
    injection hnwB with hnwB
    subst hnwB
    rw [heqA]
    exact heqB.symm

/-- Addresses other than the freed head are untouched by a pop. -/
theorem deref_popped (q : LockFreeQueue T) (i : Nat) (hne : i ≠ q.head_) :
    ({ q with
        head_ := q.head_ + 1
        heap := q.heap.set q.head_ none
        size_ := q.size_ - 1 } : LockFreeQueue T).deref i = q.deref i := by
  simp only [deref]
  rw [List.getElem?_set_ne (fun h => hne h.symm)]

/-- The old head node is freed by a successful pop. -/
theorem deref_popped_head (q : LockFreeQueue T) (hlt : q.head_ < q.heap.length) :
    ({ q with
        head_ := q.head_ + 1
        heap := q.heap.set q.head_ none
        size_ := q.size_ - 1 } : LockFreeQueue T).deref q.head_ = none := by
  simp only [deref]
  rw [List.getElem?_set_self (by simpa using hlt)]
  rfl

/-- Popping a queue that represents the empty list reports not-found. -/
theorem Sim_pop_nil {q : LockFreeQueue T} (hs : Sim q []) : q.pop = (none, q) :=
  pop_empty q hs.1 (by have h := hs.2.1; simp at h; omega)

/-- Popping a queue representing `v :: l` returns `v` and leaves a queue
representing `l`; the new head node still carries the popped payload. -/
theorem Sim_pop_cons {q : LockFreeQueue T} {v : T} {l : List T}
    (hs : Sim q (v :: l)) :
    q.pop =
      (some v,
       { q with
         head_ := q.head_ + 1
         heap := q.heap.set q.head_ none
         size_ := q.size_ - 1 }) ∧
    Sim { q with
          head_ := q.head_ + 1
          heap := q.heap.set q.head_ none
          size_ := q.size_ - 1 } l ∧
    (∀ n : Node T,
      ({ q with
          head_ := q.head_ + 1
          heap := q.heap.set q.head_ none
          size_ := q.size_ - 1 } : LockFreeQueue T).deref (q.head_ + 1) = some n →
      n.data = some v) := by
  obtain ⟨hinv, htail, hval⟩ := hs
  have hlt : q.head_ < q.tail_ := by
    rw [htail]
    simp only [List.length_cons]
    omega
  obtain ⟨hn, nn, w, hhn, hhnext, hnn, hnw, heq⟩ :=
    popLoop_cons q q.heap.length hinv hlt
  have hwv : w = v := by
    have hv0 := hval 0
    simp [valAt, hnn, hnw] at hv0
    exact hv0
  subst hwv
  obtain ⟨hlen, hht, hfree, hchain, ⟨tn, htn, hnext⟩, hdata, hsz⟩ := hinv
  have hph : ({ q with
      head_ := q.head_ + 1
      heap := q.heap.set q.head_ none
      size_ := q.size_ - 1 } : LockFreeQueue T).head_ = q.head_ + 1 := rfl
  have hpt : ({ q with
      head_ := q.head_ + 1
      heap := q.heap.set q.head_ none
      size_ := q.size_ - 1 } : LockFreeQueue T).tail_ = q.tail_ := rfl
  have hpheap : ({ q with
      head_ := q.head_ + 1
      heap := q.heap.set q.head_ none
      size_ := q.size_ - 1 } : LockFreeQueue T).heap = q.heap.set q.head_ none := rfl
  have hpsz : ({ q with
      head_ := q.head_ + 1
      heap := q.heap.set q.head_ none
      size_ := q.size_ - 1 } : LockFreeQueue T).size_ = q.size_ - 1 := rfl
  refine ⟨heq, ⟨⟨?_, ?_, ?_, ?_, ?_, ?_, ?_⟩, ?_, ?_⟩, ?_⟩
  · rw [hpt, hpheap]
    simpa using hlen
  · rw [hph, hpt]
    omega
  · intro i hi
    rw [hph] at hi
    rw [hpheap]
    rcases Nat.lt_or_ge i q.head_ with hi2 | hi2
    · rw [List.getElem?_set_ne (by omega : q.head_ ≠ i)]
      exact hfree i hi2
    · have hieq : i = q.head_ := by omega
      subst hieq
      rw [List.getElem?_set_self (by omega : q.head_ < q.heap.length)]
  · intro i h1 h2
    rw [hph] at h1
    rw [hpt] at h2
    rw [deref_popped q i (by omega)]
    exact hchain i (by omega) h2
  · rw [hpt, deref_popped q q.tail_ (by omega)]
    exact ⟨tn, htn, hnext⟩
  · intro i h1 h2
    rw [hph] at h1
    rw [hpt] at h2
    rw [deref_popped q i (by omega)]
    exact hdata i (by omega) h2
  · rw [hpsz, hpt, hph]
    omega
  · rw [hpt, hph, htail]
    simp only [List.length_cons]
    omega
  · intro j
    simp only [valAt]
    rw [deref_popped q (q.head_ + 1 + 1 + j) (by omega)]
    have harith : q.head_ + 1 + 1 + j = q.head_ + 1 + (j + 1) := by omega
    rw [harith]
    have hv := hval (j + 1)
    rw [valAt] at hv
    rw [hv]
    simp
  · intro n hn
    rw [deref_popped q (q.head_ + 1) (by omega)] at hn
    rw [hnn] at hn
    injection hn with hn
    subst hn
    exact hnw

/-- Unfolding of one pop in `popN`. -/
theorem popN_succ (q : LockFreeQueue T) (k : Nat) :
    popN q (k + 1) =
      match q.pop with
      | (none, q1) => ([], q1)
      | (some v, q1) =>
        let r := popN q1 k
        (v :: r.1, r.2) := rfl

/-- A single-thread producer pushing `vs` appends `vs` to the represented
list. -/
theorem pushAll_sim :
    ∀ (vs : List T) (q : LockFreeQueue T) (l : List T),
      Sim q l → Sim (pushAll q vs) (l ++ vs) := by
  intro vs
  induction vs with
  | nil => intro q l hs; simpa using hs
  | cons v vs ih =>
    intro q l hs
    have h2 := ih (q.push v) (l ++ [v]) (Sim_push v hs)
    show Sim (pushAll (q.push v) vs) (l ++ v :: vs)
    simpa [List.append_assoc] using h2

/-- A single-thread consumer popping as many times as the queue holds gets
exactly the represented list, in order, and leaves the empty queue. -/
theorem popN_sim :
    ∀ (l : List T) (q : LockFreeQueue T),
      Sim q l → (popN q l.length).1 = l ∧ Sim (popN q l.length).2 [] := by
  intro l
  induction l with
  | nil => intro q hs; exact ⟨rfl, hs⟩
  | cons v l ih =>
    intro q hs
    obtain ⟨hpop, hsim2, _⟩ := Sim_pop_cons hs
    have h1 := ih _ hsim2
    constructor
    · show (popN q (l.length + 1)).1 = v :: l
      rw [popN_succ, hpop]
      simpa using h1.1
    · show Sim (popN q (l.length + 1)).2 []
      rw [popN_succ, hpop]
      exact h1.2

/-- Every reachable state represents some list, and its head node's payload
is either the dummy's null payload or a value that was already popped. -/
theorem Reach_props {q : LockFreeQueue T} {hist : List T} (h : Reach T q hist) :
    (∃ l, Sim q l) ∧
    (∀ n : Node T, q.deref q.head_ = some n →
      n.data = none ∨ ∃ v, v ∈ hist ∧ n.data = some v) := by
  induction h with
  | init =>
    refine ⟨⟨[], Sim_new⟩, ?_⟩
    intro n hn
    left
    have h0 : (new T).deref (new T).head_ =
        some ({ data := none, next := none } : Node T) := rfl
    rw [h0] at hn
    injection hn with hn
    rw [← hn]
  | push v hr ih =>
    rename_i q1 hist1
    obtain ⟨⟨l, hsim⟩, hhead⟩ := ih
    obtain ⟨hlen, hht, hfree, hchain, ⟨tn, htn, hnext⟩, hdata, hsz⟩ := hsim.1
    have hd := deref_push q1 v tn hlen htn hnext
    have hpush := push_eq q1 v tn hlen htn hnext
    have hh2 : (q1.push v).head_ = q1.head_ := by rw [hpush]
    refine ⟨⟨l ++ [v], Sim_push v hsim⟩, ?_⟩
    intro n hn
    rw [hh2, hd q1.head_] at hn
    by_cases he : q1.head_ = q1.tail_
    · rw [if_pos he] at hn
      injection hn with hn
      have htn2 : q1.deref q1.head_ = some tn := by rw [he]; exact htn
      rcases hhead tn htn2 with h0 | ⟨w, hw1, hw2⟩
      · left
        rw [← hn]
        exact h0
      · right
        exact ⟨w, hw1, by rw [← hn]; exact hw2⟩
    · rw [if_neg he, if_neg (by omega : ¬(q1.head_ = q1.heap.length))] at hn
      exact hhead n hn
  | pop hr hpop ih =>
    rename_i q1 q2 hist1 r
    obtain ⟨⟨l, hsim⟩, hhead⟩ := ih
    cases l with
    | nil =>
      rw [Sim_pop_nil hsim] at hpop
      injection hpop with e1 e2
      subst e2
      refine ⟨⟨[], hsim⟩, ?_⟩
      intro n hn
      rcases hhead n hn with h0 | ⟨w, hw1, hw2⟩
      · left
        exact h0
      · right
        refine ⟨w, ?_, hw2⟩
        rw [← e1]
        simpa using hw1
    | cons v l =>
      obtain ⟨hpeq, hsim2, hnode⟩ := Sim_pop_cons hsim
      rw [hpeq] at hpop
      injection hpop with e1 e2
      subst e2
      refine ⟨⟨l, hsim2⟩, ?_⟩
      intro n hn
      right
      refine ⟨v, ?_, hnode n hn⟩
      rw [← e1]
      simp

end LockFreeQueue

/-- C7: pushing any finite sequence of values from a single thread and then
popping the same number of times from that thread returns exactly the pushed
values in FIFO order, and a further pop on the then-empty queue returns
not-found without blocking (any fuel at least one settles it). -/
theorem claim_C7 (T : Type) (vs : List T) :
    (LockFreeQueue.popN (LockFreeQueue.pushAll (LockFreeQueue.new T) vs) vs.length).1
      = vs ∧
    ((LockFreeQueue.popN (LockFreeQueue.pushAll (LockFreeQueue.new T) vs)
        vs.length).2.pop).1 = none ∧
    (∀ f, 1 ≤ f →
      LockFreeQueue.popLoop f
          (LockFreeQueue.popN (LockFreeQueue.pushAll (LockFreeQueue.new T) vs)
            vs.length).2 =
        (LockFreeQueue.popN (LockFreeQueue.pushAll (LockFreeQueue.new T) vs)
          vs.length).2.pop) := by
  have hsim : LockFreeQueue.Sim (LockFreeQueue.pushAll (LockFreeQueue.new T) vs) vs := by
    have h2 := LockFreeQueue.pushAll_sim vs (LockFreeQueue.new T) [] LockFreeQueue.Sim_new
    simpa using h2
  obtain ⟨h1, h2⟩ := LockFreeQueue.popN_sim vs _ hsim
  refine ⟨h1, ?_, ?_⟩
  · rw [LockFreeQueue.Sim_pop_nil h2]
  · intro f hf
    obtain ⟨f2, rfl⟩ : ∃ f2, f = f2 + 1 := ⟨f - 1, by omega⟩
    exact LockFreeQueue.popLoop_fuel _ h2.1 f2

/-- Witness for C7: pushing 1, 2, 3 and popping three times returns
[1, 2, 3]. -/
theorem claim_C7_witness :
    (LockFreeQueue.popN (LockFreeQueue.pushAll (LockFreeQueue.new Nat) [1, 2, 3]) 3).1
      = [1, 2, 3] :=
  (claim_C7 Nat [1, 2, 3]).1

/-- C8: in every state reachable from the fresh queue by pushes and pops, a
node always exists at the head (the permanent sentinel discipline: the
structure is never empty), the head node's payload has already been consumed
(it is the dummy's null payload or a previously popped value), the tail
never precedes the head, and the tail node is the last linked node (its next
is null) — in the sequential model the tail lags by nothing. -/
theorem claim_C8 (T : Type) (q : LockFreeQueue T) (hist : List T)
    (hr : LockFreeQueue.Reach T q hist) :
    (∃ n : Smartice.Node T, q.deref q.head_ = some n ∧
      (n.data = none ∨ ∃ v, v ∈ hist ∧ n.data = some v)) ∧
    1 ≤ q.heap.length ∧
    q.head_ ≤ q.tail_ ∧
    (∃ tn : Smartice.Node T, q.deref q.tail_ = some tn ∧ tn.next = none) := by
  obtain ⟨⟨l, hsim⟩, hhead⟩ := LockFreeQueue.Reach_props hr
  obtain ⟨hlen, hht, hfree, hchain, htailn, hdata, hsz⟩ := hsim.1
  refine ⟨?_, by omega, hht, htailn⟩
  rcases Nat.eq_or_lt_of_le hht with he | hlt
  · obtain ⟨tn, htn, _⟩ := htailn
    have htn2 : q.deref q.head_ = some tn := by rw [he]; exact htn
    exact ⟨tn, htn2, hhead tn htn2⟩
  · obtain ⟨n, hn, _⟩ := hchain q.head_ (Nat.le_refl _) hlt
    exact ⟨n, hn, hhead n hn⟩

/-- Witness for C8: the freshly constructed queue is reachable and already
satisfies the head/tail discipline. -/
theorem claim_C8_witness :
    LockFreeQueue.Reach Nat (LockFreeQueue.new Nat) [] ∧
    (LockFreeQueue.new Nat).head_ ≤ (LockFreeQueue.new Nat).tail_ :=
  ⟨LockFreeQueue.Reach.init,
   (claim_C8 Nat (LockFreeQueue.new Nat) [] LockFreeQueue.Reach.init).2.2.1⟩

/-- C4: on every invariant queue state, `pop` returns without blocking (any
fuel of at least one iteration gives the same answer); it reports not-found
exactly when the queue is observed empty (head = tail with no next node);
on success it returns the payload of the node after head read from the
pre-pop heap (copied before the head-advancing CAS), advances head to that
node, leaves tail alone and frees exactly the old head node; and whenever
head = tail but a next node exists, the iteration swings the lagging tail
forward and retries. -/
theorem claim_C4 (T : Type) (q : LockFreeQueue T) (hinv : LockFreeQueue.Inv q) :
    (∀ f, 1 ≤ f → LockFreeQueue.popLoop f q = q.pop) ∧
    ((q.pop).1 = none ↔ LockFreeQueue.observedEmpty q) ∧
    (∀ (v : T) (q2 : LockFreeQueue T), q.pop = (some v, q2) →
      ∃ a, (q.deref q.head_).bind Smartice.Node.next = some a ∧
        q.valAt a = some v ∧ q2.head_ = a ∧ q2.tail_ = q.tail_ ∧
        q2.deref q.head_ = none ∧ a ≠ q.head_) ∧
    (∀ (r : LockFreeQueue T) (n : Smartice.Node T) (a f : Nat),
      r.head_ = r.tail_ → r.deref r.head_ = some n → n.next = some a →
      LockFreeQueue.popLoop (f + 1) r = LockFreeQueue.popLoop f { r with tail_ := a }) := by
  have hlen := hinv.1
  have hht := hinv.2.1
  refine ⟨?_, ?_, ?_, ?_⟩
  · intro f hf
    obtain ⟨f2, rfl⟩ : ∃ f2, f = f2 + 1 := ⟨f - 1, by omega⟩
    exact LockFreeQueue.popLoop_fuel q hinv f2
  · rcases Nat.eq_or_lt_of_le hht with he | hlt
    · obtain ⟨tn, htn, hnext⟩ := hinv.2.2.2.2.1
      rw [LockFreeQueue.pop_empty q hinv he]
      constructor
      · intro _
        refine ⟨he, ?_⟩
        rw [he, htn]
        simp [hnext]
      · intro _
        rfl
    · obtain ⟨hn, nn, w, hhn, hhnext, hnn, hnw, heq⟩ :=
        LockFreeQueue.popLoop_cons q q.heap.length hinv hlt
      have heq2 : q.pop = _ := heq
      rw [heq2]
      constructor
      · intro h
        simp at h
      · rintro ⟨he2, _⟩
        omega
  · intro v q2 hpq
    rcases Nat.eq_or_lt_of_le hht with he | hlt
    · rw [LockFreeQueue.pop_empty q hinv he] at hpq
      injection hpq with e1 e2
      exact absurd e1 (by simp)
    · obtain ⟨hn, nn, w, hhn, hhnext, hnn, hnw, heq⟩ :=
        LockFreeQueue.popLoop_cons q q.heap.length hinv hlt
      have heq2 : q.pop = _ := heq
      rw [heq2] at hpq
      injection hpq with e1 e2
      injection e1 with e1
      subst e1
      subst e2
      refine ⟨q.head_ + 1, ?_, ?_, rfl, rfl, ?_, by omega⟩
      · rw [hhn]
        simpa using hhnext
      · simp [LockFreeQueue.valAt, hnn, hnw]
      · exact LockFreeQueue.deref_popped_head q (by omega)
  · intro r n a f hrt hrd hna
    rw [LockFreeQueue.popLoop_succ, hrd]
    simp [hrt, hna]

/-- Witness for C4: the fresh queue satisfies the invariant, and its pop
reports not-found precisely because it is observed empty. -/
theorem claim_C4_witness :
    LockFreeQueue.Inv (LockFreeQueue.new Nat) ∧
    (((LockFreeQueue.new Nat).pop).1 = none ↔
      LockFreeQueue.observedEmpty (LockFreeQueue.new Nat)) :=
  ⟨LockFreeQueue.Inv_new,
   (claim_C4 Nat (LockFreeQueue.new Nat) LockFreeQueue.Inv_new).2.1⟩

end Smartice
